import Mathlib

/-!
Verification of the coinflow binary wire-format codec.

Byte strings are modelled as `List Nat` with every element below 256.
Python's `struct.pack`/`struct.unpack` fixed-width fields become the
little-endian / big-endian conversions below; `struct` raises on
out-of-range values and short buffers, so fallible operations return
`Option` and theorems carry the corresponding range hypotheses.
-/

namespace Coinflow

/-- The `w` little-endian bytes of `n` (Python `struct.pack` with format
characters `B`, `H`, `L`, `Q` for `w` = 1, 2, 4, 8; `pack` rejects
`n ≥ 256 ^ w`, which theorems track as a hypothesis). -/
def leBytes (w n : Nat) : List Nat :=
  (List.range w).map (fun i => n / 256 ^ i % 256)

/-- Value of a little-endian byte string (Python `struct.unpack` of `H`,
`L`, `Q` fields). -/
def leVal (bs : List Nat) : Nat :=
  bs.foldr (fun b acc => b + 256 * acc) 0

/-- Value of a big-endian byte string (Python `struct.unpack` of a `>H`
field, used for ports). -/
def beVal (bs : List Nat) : Nat :=
  bs.foldl (fun acc b => acc * 256 + b) 0

/-- The two big-endian bytes of a port number (Python `struct.pack` of a
`>H` field; `pack` rejects `n ≥ 2 ^ 16`). -/
def beBytes2 (n : Nat) : List Nat :=
  [n / 256 % 256, n % 256]

/-- `Varint.encode` from `structs/Varint.py` and `int2varint` from
`structs.py` (both use the same tier tests, strict `<` at every
boundary): one literal byte below 0xfd, otherwise a marker byte 0xfd /
0xfe / 0xff followed by the value as little-endian u16 / u32 / u64. -/
def int2varint (n : Nat) : List Nat :=
  if n < 0xfd then [n]
  else if n < 0xffff then 0xfd :: leBytes 2 n
  else if n < 0xffffffff then 0xfe :: leBytes 4 n
  else 0xff :: leBytes 8 n

/-- `Varint.decode` from `structs/Varint.py` and `varint2int` from
`structs.py`: reads the marker byte and returns the decoded value paired
with a reported length of 1, 3, 5 or — for the 0xff marker — 7 (the
source returns 7 although the 0xff form occupies 9 bytes).
`None` models Python's raised error on an empty or too-short buffer. -/
def varint2int (n : List Nat) : Option (Nat × Nat) :=
  match n with
  | [] => none
  | n0 :: rest =>
    if n0 < 0xfd then some (n0, 1)
    else if n0 = 0xfd then
      if 2 ≤ rest.length then some (leVal (rest.take 2), 3) else none
    else if n0 = 0xfe then
      if 4 ≤ rest.length then some (leVal (rest.take 4), 5) else none
    else
      if 8 ≤ rest.length then some (leVal (rest.take 8), 7) else none

/-- The length reported by `varint2int` for a value encoded by
`int2varint` (7, not 9, in the top tier). -/
def varintReportedLen (n : Nat) : Nat :=
  if n < 0xfd then 1
  else if n < 0xffff then 3
  else if n < 0xffffffff then 5
  else 7

/-- UTF-8 encoding of one Unicode scalar value (Python `str.encode`
applied to one character). Strings are modelled as lists of code
points. -/
def utf8EncodeChar (c : Nat) : List Nat :=
  if c < 0x80 then [c]
  else if c < 0x800 then [0xc0 + c / 64, 0x80 + c % 64]
  else if c < 0x10000 then
    [0xe0 + c / 4096, 0x80 + c / 64 % 64, 0x80 + c % 64]
  else
    [0xf0 + c / 262144, 0x80 + c / 4096 % 64, 0x80 + c / 64 % 64,
     0x80 + c % 64]

/-- UTF-8 encoding of a string (Python `str.encode` with the default
`utf-8` codec). -/
def utf8Encode (s : List Nat) : List Nat :=
  (s.map utf8EncodeChar).flatten

/-- A UTF-8 continuation byte. -/
def isCont (b : Nat) : Bool :=
  0x80 ≤ b && b < 0xc0

/-- Parse one UTF-8 scalar whose lead byte is `b` and whose following
bytes are `bs`: the code point and the unconsumed bytes. Rejects
truncated sequences, stray continuation bytes, overlong forms and
surrogates, as Python's strict `utf-8` codec does. -/
def utf8DecodeOne (b : Nat) (bs : List Nat) : Option (Nat × List Nat) :=
  if b < 0x80 then some (b, bs)
  else if b < 0xc2 then none
  else if b < 0xe0 then
    match bs with
    | c1 :: bs1 =>
      if isCont c1 then some ((b - 0xc0) * 64 + (c1 - 0x80), bs1) else none
    | [] => none
  else if b < 0xf0 then
    match bs with
    | c1 :: c2 :: bs2 =>
      if isCont c1 && isCont c2 && !(b == 0xe0 && c1 < 0xa0) &&
          !(b == 0xed && 0xa0 ≤ c1) then
        some ((b - 0xe0) * 4096 + (c1 - 0x80) * 64 + (c2 - 0x80), bs2)
      else none
    | _ => none
  else if b < 0xf5 then
    match bs with
    | c1 :: c2 :: c3 :: bs3 =>
      if isCont c1 && isCont c2 && isCont c3 &&
          !(b == 0xf0 && c1 < 0x90) && !(b == 0xf4 && 0x90 ≤ c1) then
        some ((b - 0xf0) * 262144 + (c1 - 0x80) * 4096 +
          (c2 - 0x80) * 64 + (c3 - 0x80), bs3)
      else none
    | _ => none
  else none

/-- Decoding loop for `utf8Decode`: one scalar per step. The fuel
argument only bounds the recursion; every step consumes at least one
byte, so fuel equal to the byte count never runs out (see
`utf8DecodeLoop_fuel_irrel`). -/
def utf8DecodeLoop : Nat → List Nat → Option (List Nat)
  | _, [] => some []
  | 0, _ :: _ => none
  | fuel + 1, b :: bs =>
    match utf8DecodeOne b bs with
    | none => none
    | some (c, rest) =>
      match utf8DecodeLoop fuel rest with
      | some r => some (c :: r)
      | none => none

/-- Strict UTF-8 decoding (Python `bytes.decode` with the default
`utf-8` codec and strict error handling): returns `none` where Python
raises `UnicodeDecodeError`. -/
def utf8Decode (s : List Nat) : Option (List Nat) :=
  utf8DecodeLoop s.length s

/-- `str2varstr` from `structs.py` (and `Varstr.encode` from
`structs/Varstr.py`, which uses the same expression): the VarInt of
`len(s)` — the number of characters, not of encoded bytes — followed by
the UTF-8 encoding of `s`. -/
def str2varstr (s : List Nat) : List Nat :=
  int2varint s.length ++ utf8Encode s

/-- `varstr2str` from `structs.py`: decode the VarInt count, slice that
many bytes after it and UTF-8 decode them, returning the string and the
total consumed length. -/
def varstr2str (s : List Nat) : Option (List Nat × Nat) :=
  match varint2int s with
  | none => none
  | some (n, len) =>
    match utf8Decode ((s.drop len).take n) with
    | none => none
    | some str => some (str, len + n)

/-- Bytes that Python `struct.pack` produces for an `Ns` field: the
value truncated or null-padded to exactly `k` bytes. -/
def padBytes (k : Nat) (b : List Nat) : List Nat :=
  b.take k ++ List.replicate (k - b.length) 0

/-- Fields of a decoded network address. IPv4 addresses are modelled
as their four octets (`socket.inet_aton` / `socket.inet_ntoa` move
bijectively between the dotted string and these bytes); timestamps as
their Unix seconds (`dt2ts` / `ts2dt` move bijectively between
timezone-aware datetimes and these integers). -/
structure NetaddrParsed where
  timestamp : Option Nat
  services : Nat
  ip : List Nat
  port : Nat
deriving DecidableEq

/-- `netaddr.encode` from `structs.py`: optional leading timestamp as
little-endian u32, services as 8 bytes, the 12-byte IPv4-mapped
marker, then the IPv4 octets and the port in network byte order
(`struct.pack` with format `>4sH`). -/
def netaddrEncode (ip : List Nat) (port services : Nat)
    (timestamp : Option Nat) : List Nat :=
  (match timestamp with
   | some t => leBytes 4 t
   | none => []) ++
  leBytes 8 services ++
  (List.replicate 10 0 ++ [0xff, 0xff]) ++
  (padBytes 4 ip ++ beBytes2 port)

/-- `netaddr.decode` from `structs.py`: asserts that the buffer is
exactly 26 or 30 bytes (`none` models the `AssertionError` raised
otherwise), takes a leading u32 timestamp only in the 30-byte case,
then reads services from the first 8 remaining bytes and the IPv4
octets and port from the last 6 bytes. -/
def netaddrDecode (n : List Nat) : Option NetaddrParsed :=
  if n.length = 26 ∨ n.length = 30 then
    let p := if n.length ≠ 26 then
        ((some (leVal (n.take 4)) : Option Nat), n.drop 4)
      else ((none : Option Nat), n)
    some { timestamp := p.1,
           services := leVal (p.2.take 8),
           ip := (p.2.drop (p.2.length - 6)).take 4,
           port := beVal ((p.2.drop (p.2.length - 6)).drop 4) }
  else none

/-- Fields of the `Payload` named tuple of `structs/Netaddr.py` (the
class-based Netaddr has no timestamp field at all). -/
structure NetaddrClassParsed where
  ip : List Nat
  port : Nat
  services : Nat
deriving DecidableEq

/-- `Netaddr.decode` from `structs/Netaddr.py`: no length validation
at all — services from the first 8 bytes (`struct.unpack` of `<Q`
raises, modelled as `none`, only when fewer than 8 bytes exist), IPv4
octets and port from the last 6 bytes. -/
def NetaddrClassDecode (n : List Nat) : Option NetaddrClassParsed :=
  if 8 ≤ n.length then
    some { ip := (n.drop (n.length - 6)).take 4,
           port := beVal ((n.drop (n.length - 6)).drop 4),
           services := leVal (n.take 8) }
  else none

/-- The result of `Message.decode`: the parsed header fields and the
payload handed to `decode_payload` (the base class returns those bytes
unchanged, which is how an unrecognized command's payload is kept
raw). -/
structure MessageParsed where
  magic : Nat
  command : List Nat
  length : Nat
  checksum : List Nat
  payload : List Nat
deriving DecidableEq

/-- `Message.decode` from `messages/Message.py` (identical in
`messages.py`): unpack the 24-byte header with format `<L12sL4s`
(magic u32, 12 command bytes, payload-length u32, 4 checksum bytes),
hand the ENTIRE remainder of the buffer to `decode_payload` — the
source never slices by the length field — and strip every null byte
from the command before UTF-8 decoding it. `none` models the errors
Python raises on a buffer shorter than 24 bytes or a command that is
not UTF-8 after null-stripping. No checksum comparison happens
anywhere in `decode`. -/
def messageDecode (buf : List Nat) : Option MessageParsed :=
  if 24 ≤ buf.length then
    match utf8Decode (((buf.drop 4).take 12).filter (fun b => b != 0)) with
    | none => none
    | some cmd =>
      some { magic := leVal (buf.take 4),
             command := cmd,
             length := leVal ((buf.drop 16).take 4),
             checksum := (buf.drop 20).take 4,
             payload := buf.drop 24 }
  else none

/-- `Message.__bytes__` from `messages/Message.py`: the header packed
with `<L12sL4s` — the `s` fields truncate or null-pad the UTF-8
command to 12 bytes and the checksum to 4 — followed by the encoded
payload; the length field is the payload's byte length. -/
def messageEncode (magic : Nat) (command checksum payload : List Nat) :
    List Nat :=
  leBytes 4 magic ++
    (padBytes 12 (utf8Encode command) ++
      (leBytes 4 payload.length ++ (padBytes 4 checksum ++ payload)))

/-- The command strings having dedicated payload codecs in the
repository: "version", "verack" and "addr", as code-point lists. -/
def knownCommands : List (List Nat) :=
  [[0x76, 0x65, 0x72, 0x73, 0x69, 0x6f, 0x6e],
   [0x76, 0x65, 0x72, 0x61, 0x63, 0x6b],
   [0x61, 0x64, 0x64, 0x72]]

/-- A socket address as it occurs in a Version payload: IPv4 octets,
port, and the optionally supplied last-seen timestamp that the encoder
must clear for handshake addresses. -/
structure SockAddr where
  ip : List Nat
  port : Nat
  timestamp : Option Nat
deriving DecidableEq

/-- Modelled from the spec: `socket2netaddr` is called by
`Version.encode_payload` and `Addr.encode_payload` but its definition
is not among the repository sources (only callers exist). Per the
spec's NetAddr layout it serializes a socket address; the leading u32
timestamp is emitted only when `with_ts` is true — with
`with_ts=False` the supplied timestamp is cleared and the 26-byte form
produced. Services default to 0 for plain sockets. -/
def socket2netaddr (ip : List Nat) (port : Nat) (timestamp : Option Nat)
    (with_ts : Bool) : List Nat :=
  netaddrEncode ip port 0 (if with_ts then timestamp else none)

/-- Modelled from the spec: `netaddr2socket` is called by
`Version.decode_payload_raw` and `Addr.decode_payload` but its
definition is not among the repository sources. Per the spec's NetAddr
layout it parses a 26- or 30-byte buffer into timestamp (absent in the
26-byte form), services, address octets and port — the behaviour of
`netaddr.decode`. -/
def netaddr2socket (n : List Nat) : Option NetaddrParsed :=
  netaddrDecode n

/-- Modelled from the spec: the `structs.varstr2str` that
`Version.decode_payload_raw` calls is not among the package sources.
Per the spec's VarStr design it decodes the VarInt count and returns
that many content bytes together with the total consumed length
(failing on a truncated buffer); its caller `Version.decode_payload`
UTF-8-decodes the returned bytes itself. -/
def varstrDecodeBytes (s : List Nat) : Option (List Nat × Nat) :=
  match varint2int s with
  | none => none
  | some (n, len) =>
    if n ≤ (s.drop len).length then some ((s.drop len).take n, len + n)
    else none

/-- The `USER_AGENT` class constant of `messages/Version.py`:
"coinflow analyzer 0.0.1" as code points. -/
def USER_AGENT : List Nat :=
  [0x63, 0x6f, 0x69, 0x6e, 0x66, 0x6c, 0x6f, 0x77, 0x20, 0x61, 0x6e,
   0x61, 0x6c, 0x79, 0x7a, 0x65, 0x72, 0x20, 0x30, 0x2e, 0x30, 0x2e,
   0x31]

/-- Python's `or` fallback on an optional string: `None` and the empty
string are both falsy, so either falls back to the default. -/
def strOr (s : Option (List Nat)) (dflt : List Nat) : List Nat :=
  match s with
  | none => dflt
  | some t => if t = [] then dflt else t

/-- The payload dict a `Version` object holds. Timestamps are
modelled by their Unix seconds (`dt2ts`/`ts2dt` are mutually inverse
bridges between timezone-aware datetimes and these integers). -/
structure VersionPayload where
  version : Nat
  services : Nat
  timestamp : Nat
  addr_recv : SockAddr
  addr_from : SockAddr
  nonce : Nat
  user_agent : Option (List Nat)
  start_height : Nat
  relay : Bool
deriving DecidableEq

/-- `Version.__init__` from `messages/Version.py`: the payload dict it
builds stores `self.VERSION` — the class constant — as the version
entry; the constructor's `version` parameter is accepted but never
read. -/
def versionInit (classVersion : Nat) (versionArg : Option Nat)
    (services : Nat) (timestamp : Nat) (addr_recv addr_from : SockAddr)
    (nonce : Nat) (user_agent : Option (List Nat)) (start_height : Nat)
    (relay : Bool) : VersionPayload :=
  { version := classVersion, services := services, timestamp := timestamp,
    addr_recv := addr_recv, addr_from := addr_from, nonce := nonce,
    user_agent := user_agent, start_height := start_height, relay := relay }

/-- `Version.encode_payload` from `messages/Version.py`: `struct.pack`
with format `<LQq26s26sQ{ua_len}sL?`. Two quirks of the source are
kept: the version written is the class attribute `self.VERSION`, never
the payload's version entry (the local `version = p['version'] or
self.VERSION` is computed but not packed), and the user agent falls
back to the class default when the payload holds `None` or the empty
string. Both addresses are serialized via `socket2netaddr` with
`with_ts=False`; the `{ua_len}s` field width is exactly the VarStr's
length, so it passes through unchanged. -/
def versionEncodePayload (classVersion : Nat) (p : VersionPayload) :
    List Nat :=
  leBytes 4 classVersion ++
    (leBytes 8 p.services ++
      (leBytes 8 p.timestamp ++
        (padBytes 26 (socket2netaddr p.addr_recv.ip p.addr_recv.port
            p.addr_recv.timestamp false) ++
          (padBytes 26 (socket2netaddr p.addr_from.ip p.addr_from.port
              p.addr_from.timestamp false) ++
            (leBytes 8 p.nonce ++
              (str2varstr (strOr p.user_agent USER_AGENT) ++
                (leBytes 4 p.start_height ++
                  [if p.relay then 1 else 0])))))))

/-- The dict `Version.decode_payload` returns: addresses reduced to
(ipaddr, port) pairs — they carry no timestamp slot at all — and the
user agent UTF-8 decoded. -/
structure VersionDecoded where
  version : Nat
  services : Nat
  timestamp : Nat
  addr_recv : List Nat × Nat
  addr_from : List Nat × Nat
  nonce : Nat
  user_agent : List Nat
  start_height : Nat
  relay : Bool
deriving DecidableEq

/-- `Version.decode_payload` (via `decode_payload_raw`) from
`messages/Version.py`: the user-agent field width is
`len(payload) - 85` (85 = calcsize of the fixed fields), the fixed
fields sit at offsets 0, 4, 12, 20, 46, 72, then the VarStr, the u32
start height and the relay byte; addresses are parsed by
`netaddr2socket` and reduced to (ipaddr, port); the relay flag is true
for any nonzero byte. `none` models the struct / decode errors Python
raises. -/
def versionDecodePayload (payload : List Nat) : Option VersionDecoded :=
  if 85 ≤ payload.length then
    match netaddr2socket ((payload.drop 20).take 26),
        netaddr2socket ((payload.drop 46).take 26),
        varstrDecodeBytes ((payload.drop 80).take (payload.length - 85)) with
    | some recv, some sender, some (uaBytes, _) =>
      match utf8Decode uaBytes with
      | some ua =>
        some { version := leVal (payload.take 4),
               services := leVal ((payload.drop 4).take 8),
               timestamp := leVal ((payload.drop 12).take 8),
               addr_recv := (recv.ip, recv.port),
               addr_from := (sender.ip, sender.port),
               nonce := leVal ((payload.drop 72).take 8),
               user_agent := ua,
               start_height :=
                 leVal ((payload.drop (80 + (payload.length - 85))).take 4),
               relay :=
                 (payload.drop (84 + (payload.length - 85))).headD 0 != 0 }
      | none => none
    | _, _, _ => none
  else none

/-- One entry of an addr list as `Addr.__init__` receives it: the
last-seen timestamp (as Unix seconds) and the socket address. -/
structure AddrEntry where
  timestamp : Nat
  ip : List Nat
  port : Nat
deriving DecidableEq

/-- One entry of the list `Addr.decode_payload` returns: the entry
timestamp plus the address fields parsed by `netaddr2socket` after its
(absent) own timestamp is deleted. -/
structure AddrDecodedEntry where
  timestamp : Nat
  services : Nat
  ip : List Nat
  port : Nat
deriving DecidableEq

/-- The Python for-loop of `Addr.decode_payload` accumulating one
parsed entry per index; any error aborts the whole decode. -/
def mapOption {α β : Type} (f : α → Option β) : List α → Option (List β)
  | [] => some []
  | x :: xs =>
    match f x, mapOption f xs with
    | some y, some ys => some (y :: ys)
    | _, _ => none

/-- Python `range(start, stop, 30)`: the slice offsets the decode loop
of `Addr.decode_payload` visits. -/
def pyRange30 (start stop : Nat) : List Nat :=
  (List.range ((stop - start + 29) / 30)).map (fun k => start + 30 * k)

/-- The 30 bytes `Addr.encode_payload` emits per entry:
`struct.pack('<L26s', dt2ts(timestamp), socket2netaddr(*addr))` — the
timestamp as a little-endian u32 and the 26-byte address form (a plain
(ip, port) socket carries no timestamp of its own). -/
def addrEntryEncode (e : AddrEntry) : List Nat :=
  leBytes 4 e.timestamp ++
    padBytes 26 (socket2netaddr e.ip e.port none false)

/-- `Addr.encode_payload` from `messages/Addr.py`: the VarInt of the
list length followed by each entry's 30 bytes, in the order given —
the source neither sorts by timestamp nor truncates the list. -/
def addrEncodePayload (addr_list : List AddrEntry) : List Nat :=
  int2varint addr_list.length ++
    (addr_list.map addrEntryEncode).flatten

/-- `Addr.decode_payload` from `messages/Addr.py`: read the VarInt
count and its consumed length `pfx`, then for each i in
`range(pfx, addr_len * 30, 30)` slice `payload[i:i+30]` and unpack it
as `<L26s` (a u32 timestamp, failing unless the slice is exactly 30
bytes, then a 26-byte address for `netaddr2socket`, whose absent
timestamp the loop deletes). -/
def addrDecodePayload (payload : List Nat) :
    Option (List AddrDecodedEntry) :=
  match varint2int payload with
  | none => none
  | some (addr_len, pfx) =>
    mapOption (fun i =>
      let slice := (payload.drop i).take 30
      if slice.length = 30 then
        match netaddr2socket ((slice.drop 4).take 26) with
        | some na =>
          some { timestamp := leVal (slice.take 4),
                 services := na.services, ip := na.ip, port := na.port }
        | none => none
      else none)
      (pyRange30 pfx (addr_len * 30))

theorem leBytes_length (w n : Nat) : (leBytes w n).length = w := by
  simp [leBytes]

theorem leBytes_succ (w n : Nat) :
    leBytes (w + 1) n = n % 256 :: leBytes w (n / 256) := by
  simp only [leBytes, List.range_succ_eq_map, List.map_cons, List.map_map]
  refine congrArg₂ List.cons (by simp) ?_
  apply List.map_congr_left
  intro i _
  simp only [Function.comp_apply]
  rw [Nat.div_div_eq_div_mul, ← pow_succ']

theorem leVal_cons (b : Nat) (bs : List Nat) :
    leVal (b :: bs) = b + 256 * leVal bs := by
  simp [leVal]

theorem leVal_leBytes (w n : Nat) : leVal (leBytes w n) = n % 256 ^ w := by
  induction w generalizing n with
  | zero => simp [leBytes, leVal, Nat.mod_one]
  | succ w ih =>
    rw [leBytes_succ, leVal_cons, ih]
    have h1 : n / 256 % 256 ^ w = n % (256 * 256 ^ w) / 256 :=
      (Nat.mod_mul_right_div_self n 256 (256 ^ w)).symm
    have h2 : n % 256 = n % (256 * 256 ^ w) % 256 :=
      (Nat.mod_mod_of_dvd n (Dvd.intro (256 ^ w) rfl)).symm
    rw [h1, h2, pow_succ]
    have h3 : 256 ^ w * 256 = 256 * 256 ^ w := by ring
    rw [h3]
    omega

theorem leVal_leBytes_of_lt {w n : Nat} (h : n < 256 ^ w) :
    leVal (leBytes w n) = n := by
  rw [leVal_leBytes]; exact Nat.mod_eq_of_lt h

theorem int2varint_length (n : Nat) :
    (int2varint n).length =
      if n < 0xfd then 1
      else if n < 0xffff then 3
      else if n < 0xffffffff then 5
      else 9 := by
  unfold int2varint
  split
  · simp
  · split
    · simp [leBytes_length]
    · split <;> simp [leBytes_length]

theorem varint2int_cons_lit {b : Nat} (rest : List Nat) (h : b < 0xfd) :
    varint2int (b :: rest) = some (b, 1) := by
  simp [varint2int, h]

theorem varint2int_cons_fd (rest : List Nat) (h : 2 ≤ rest.length) :
    varint2int (0xfd :: rest) = some (leVal (rest.take 2), 3) := by
  simp [varint2int, h]

theorem varint2int_cons_fe (rest : List Nat) (h : 4 ≤ rest.length) :
    varint2int (0xfe :: rest) = some (leVal (rest.take 4), 5) := by
  simp [varint2int, h]

theorem varint2int_cons_ff (rest : List Nat) (h : 8 ≤ rest.length) :
    varint2int (0xff :: rest) = some (leVal (rest.take 8), 7) := by
  simp [varint2int, h]

theorem take_append_leBytes (w n : Nat) (rest : List Nat) :
    (leBytes w n ++ rest).take w = leBytes w n := by
  rw [List.take_append_of_le_length (by simp [leBytes_length])]
  simp [leBytes_length]

theorem varint2int_int2varint (n : Nat) (hn : n < 2 ^ 64) (rest : List Nat) :
    varint2int (int2varint n ++ rest) = some (n, varintReportedLen n) := by
  by_cases h1 : n < 0xfd
  · simp [int2varint, varintReportedLen, h1, varint2int_cons_lit]
  · by_cases h2 : n < 0xffff
    · rw [int2varint, if_neg h1, if_pos h2, varintReportedLen, if_neg h1,
        if_pos h2, List.cons_append,
        varint2int_cons_fd _ (by simp [leBytes_length]),
        take_append_leBytes, leVal_leBytes_of_lt (by omega : n < 256 ^ 2)]
    · by_cases h3 : n < 0xffffffff
      · rw [int2varint, if_neg h1, if_neg h2, if_pos h3, varintReportedLen,
          if_neg h1, if_neg h2, if_pos h3, List.cons_append,
          varint2int_cons_fe _ (by simp [leBytes_length]),
          take_append_leBytes, leVal_leBytes_of_lt (by omega : n < 256 ^ 4)]
      · rw [int2varint, if_neg h1, if_neg h2, if_neg h3, varintReportedLen,
          if_neg h1, if_neg h2, if_neg h3, List.cons_append,
          varint2int_cons_ff _ (by simp [leBytes_length]),
          take_append_leBytes,
          leVal_leBytes_of_lt (by omega : n < 256 ^ 8)]

theorem leBytes_two (n : Nat) : leBytes 2 n = [n % 256, n / 256 % 256] := by
  rw [leBytes_succ, leBytes_succ]
  simp [leBytes]

/-- C2 (counterexample): the claim demands that decode applied to
encode of 0x100000000 report the byte length of the encoding, which is
9; the source reports 7 for the 0xff tier, so the claimed pair is not
returned. -/
theorem c2_varint_reported_length_cex :
    varint2int (int2varint 0x100000000) ≠
      some (0x100000000, (int2varint 0x100000000).length) ∧
    (int2varint 0x100000000).length = 9 ∧
    varint2int (int2varint 0x100000000) = some (0x100000000, 7) := by
  refine ⟨?_, by decide, by decide⟩
  intro h
  have h9 : (int2varint 0x100000000).length = 9 := by decide
  rw [h9] at h
  have : varint2int (int2varint 0x100000000) = some (0x100000000, 7) := by
    decide
  rw [this] at h
  simp at h

/-- C2 (amended): for every n in {0, 0xfc, 0xfd, 0xffff, 0x10000,
0xffffffff, 0x100000000}, decode applied to encode of n returns the
pair (n, L) where L is the reported length 1, 3, 5 or 7 — the source
reports 7, not 9, for the two values in the 0xff tier, whose encodings
occupy 9 bytes; for the five smaller values L coincides with the byte
length of the encoding. -/
theorem c2_varint_decode_encode_values :
    varint2int (int2varint 0) = some (0, 1) ∧
    varint2int (int2varint 0xfc) = some (0xfc, 1) ∧
    varint2int (int2varint 0xfd) = some (0xfd, 3) ∧
    varint2int (int2varint 0xffff) = some (0xffff, 5) ∧
    varint2int (int2varint 0x10000) = some (0x10000, 5) ∧
    varint2int (int2varint 0xffffffff) = some (0xffffffff, 7) ∧
    varint2int (int2varint 0x100000000) = some (0x100000000, 7) ∧
    (int2varint 0).length = 1 ∧ (int2varint 0xfc).length = 1 ∧
    (int2varint 0xfd).length = 3 ∧ (int2varint 0xffff).length = 5 ∧
    (int2varint 0x10000).length = 5 ∧
    (int2varint 0xffffffff).length = 9 ∧
    (int2varint 0x100000000).length = 9 := by
  decide

/-- C8 (counterexample): the claim takes the 3-byte 0xfd form for every
n with 0xfd ≤ n ≤ 0xffff, but the source's tier test is the strict
`n < 0xffff`, so encode of 0xffff itself produces the 5-byte 0xfe
form. -/
theorem c8_varint_boundary_cex :
    int2varint 0xffff = [0xfe, 0xff, 0xff, 0x00, 0x00] ∧
    (int2varint 0xffff).length ≠ 3 ∧
    int2varint 0xffff ≠ 0xfd :: leBytes 2 0xffff := by
  decide

/-- C8 (amended): for every n with 0xfd ≤ n < 0xffff (strictly below
the boundary 0xffff, which itself takes the 5-byte 0xfe form), encode
produces the 3-byte form: marker byte 0xfd followed by n as a
little-endian u16. -/
theorem c8_varint_3byte_tier (n : Nat) (hlo : 0xfd ≤ n) (hhi : n < 0xffff) :
    int2varint n = [0xfd, n % 256, n / 256 % 256] := by
  rw [int2varint, if_neg (by omega), if_pos hhi, leBytes_two]

/-- C8 (witness): the amended theorem applied at n = 0x1234. -/
theorem c8_varint_3byte_tier_witness :
    int2varint 0x1234 = [0xfd, 0x34, 0x12] :=
  c8_varint_3byte_tier 0x1234 (by decide) (by decide)

theorem utf8DecodeOne_rest_le {b : Nat} {bs : List Nat} {c : Nat}
    {rest : List Nat} (h : utf8DecodeOne b bs = some (c, rest)) :
    rest.length ≤ bs.length := by
  unfold utf8DecodeOne at h
  repeat' split at h
  all_goals simp_all
  all_goals omega

/-- Fuel adequacy: any fuel at least the byte count gives the same
result, so `utf8Decode`'s choice of fuel is immaterial. -/
theorem utf8DecodeLoop_fuel_irrel :
    ∀ (f g : Nat) (s : List Nat), s.length ≤ f → s.length ≤ g →
      utf8DecodeLoop f s = utf8DecodeLoop g s := by
  intro f
  induction f with
  | zero =>
    intro g s hf _
    cases s with
    | nil => cases g <;> rfl
    | cons b bs => simp at hf
  | succ f ih =>
    intro g s hf hg
    cases s with
    | nil => cases g <;> rfl
    | cons b bs =>
      cases g with
      | zero => simp at hg
      | succ g =>
        rw [utf8DecodeLoop, utf8DecodeLoop]
        cases hone : utf8DecodeOne b bs with
        | none => rfl
        | some cr =>
          obtain ⟨c, rest⟩ := cr
          have hle := utf8DecodeOne_rest_le hone
          simp only [List.length_cons] at hf hg
          dsimp only
          rw [ih g rest (by omega) (by omega)]

theorem utf8Encode_ascii {s : List Nat} (h : ∀ c ∈ s, c < 0x80) :
    utf8Encode s = s := by
  induction s with
  | nil => rfl
  | cons c cs ih =>
    have hc : c < 0x80 := h c (List.mem_cons_self c cs)
    have hcs : ∀ x ∈ cs, x < 0x80 := fun x hx => h x (List.mem_cons_of_mem c hx)
    simp only [utf8Encode, List.map_cons, List.flatten_cons, utf8EncodeChar,
      if_pos hc]
    rw [← utf8Encode, ih hcs]
    rfl

theorem utf8DecodeLoop_ascii :
    ∀ (s : List Nat), (∀ c ∈ s, c < 0x80) →
      utf8DecodeLoop s.length s = some s := by
  intro s
  induction s with
  | nil => intro _; rfl
  | cons c cs ih =>
    intro h
    have hc : c < 0x80 := h c (List.mem_cons_self c cs)
    have hcs : ∀ x ∈ cs, x < 0x80 := fun x hx => h x (List.mem_cons_of_mem c hx)
    rw [List.length_cons, utf8DecodeLoop,
      show utf8DecodeOne c cs = some (c, cs) from by simp [utf8DecodeOne, hc]]
    dsimp only
    rw [ih hcs]

theorem utf8Decode_ascii {s : List Nat} (h : ∀ c ∈ s, c < 0x80) :
    utf8Decode s = some s :=
  utf8DecodeLoop_ascii s h

theorem varintReportedLen_eq_length {n : Nat} (h : n < 0xffffffff) :
    varintReportedLen n = (int2varint n).length := by
  rw [int2varint_length, varintReportedLen]
  by_cases h1 : n < 0xfd
  · simp [h1]
  · by_cases h2 : n < 0xffff
    · simp [h1, h2]
    · simp [h1, h2, h]

/-- C4 (counterexample): for the one-character string "é" (code point
0xe9, whose UTF-8 encoding [0xc3, 0xa9] is 2 bytes long), encode's
prefix is the VarInt of the character count 1, not of the byte length
2, and decode applied to the encoding slices only 1 content byte
([0xc3], not valid UTF-8) and fails, so no pair (s, L) is returned. -/
theorem c4_varstr_multibyte_cex :
    varstr2str (str2varstr [0xe9]) = none ∧
    str2varstr [0xe9] = [0x01, 0xc3, 0xa9] ∧
    (utf8Encode [0xe9]).length = 2 ∧
    int2varint (utf8Encode [0xe9]).length = [0x02] := by
  decide

/-- C4 (amended): for every ASCII string s (each code point below
0x80, so the character count the source uses as the VarInt length
equals the UTF-8 byte length) with fewer than 0xffffffff characters,
decode applied to encode of s returns the pair (s, L) with L the total
byte length of encode of s; for strings with multi-byte characters the
prefix is the character count, not the UTF-8 byte length, and the
round trip fails. -/
theorem c4_varstr_roundtrip_ascii (s : List Nat)
    (hascii : ∀ c ∈ s, c < 0x80) (hlen : s.length < 0xffffffff) :
    varstr2str (str2varstr s) = some (s, (str2varstr s).length) := by
  unfold str2varstr varstr2str
  rw [utf8Encode_ascii hascii,
    varint2int_int2varint s.length (by omega) s]
  dsimp only
  rw [varintReportedLen_eq_length hlen, List.drop_left, List.take_length,
    utf8Decode_ascii hascii]
  simp [List.length_append]

/-- C4 (witness): the amended theorem applied to the ASCII string
"abc". -/
theorem c4_varstr_roundtrip_ascii_witness :
    varstr2str (str2varstr [0x61, 0x62, 0x63]) =
      some ([0x61, 0x62, 0x63], (str2varstr [0x61, 0x62, 0x63]).length) :=
  c4_varstr_roundtrip_ascii [0x61, 0x62, 0x63] (by decide) (by decide)

/-- C6 (counterexample): the class-based `Netaddr.decode` of
`structs/Netaddr.py` performs no length check: a 27-byte buffer
decodes to a NetAddr value instead of failing with InvalidLength. -/
theorem c6_netaddr_class_no_length_check_cex :
    NetaddrClassDecode (List.replicate 27 0) =
      some { ip := [0, 0, 0, 0], port := 0, services := 0 } := by
  decide

/-- C6 (amended): the flat `netaddr.decode` of `structs.py` fails (via
`assert`, an `AssertionError` rather than a typed InvalidLength)
unless the buffer length is exactly 26 or 30 — in particular a 27-byte
buffer is rejected; the class-based `Netaddr.decode` of
`structs/Netaddr.py`, however, validates nothing and accepts any
buffer of at least 8 bytes, 27-byte buffers included. -/
theorem c6_netaddr_decode_length (b : List Nat) :
    (netaddrDecode b).isSome ↔ (b.length = 26 ∨ b.length = 30) := by
  unfold netaddrDecode
  by_cases h : b.length = 26 ∨ b.length = 30
  · simp [h]
  · simp [h]

theorem padBytes_length (k : Nat) (b : List Nat) :
    (padBytes k b).length = k := by
  simp only [padBytes, List.length_append, List.length_take,
    List.length_replicate]
  omega

theorem padBytes_eq_of_length {k : Nat} {b : List Nat}
    (h : b.length = k) : padBytes k b = b := by
  subst h
  simp [padBytes]

theorem take_append_len {a : List Nat} (b : List Nat) {k : Nat}
    (h : a.length = k) : (a ++ b).take k = a := by
  subst h
  simp

theorem drop_append_len {a : List Nat} (b : List Nat) {k : Nat}
    (h : a.length = k) : (a ++ b).drop k = b := by
  subst h
  simp

theorem filter_nonzero_append_replicate (cmd : List Nat) (k : Nat)
    (h : ∀ c ∈ cmd, 0 < c) :
    (cmd ++ List.replicate k 0).filter (fun b => b != 0) = cmd := by
  rw [List.filter_append]
  have h1 : cmd.filter (fun b => b != 0) = cmd := by
    apply List.filter_eq_self.mpr
    intro a ha
    simpa using (h a ha).ne'
  have h2 : (List.replicate k 0).filter (fun b => b != 0) = [] := by
    simp
  rw [h1, h2, List.append_nil]

/-- Parsing a buffer laid out as a 24-byte header followed by
arbitrary trailing bytes: every header field is returned as written,
and the payload is the whole remainder, whatever the length field
says. The command must be nonzero ASCII of at most 12 code points and
the checksum exactly 4 bytes. -/
theorem messageDecode_fields (magic lenField : Nat)
    (cmd chk payload : List Nat)
    (hmagic : magic < 2 ^ 32) (hlen : lenField < 2 ^ 32)
    (hcmd : ∀ c ∈ cmd, 0 < c ∧ c < 0x80) (hcmdlen : cmd.length ≤ 12)
    (hchk : chk.length = 4) :
    messageDecode (leBytes 4 magic ++
        (padBytes 12 cmd ++ (leBytes 4 lenField ++ (chk ++ payload)))) =
      some { magic := magic, command := cmd, length := lenField,
             checksum := chk, payload := payload } := by
  have l1 : (leBytes 4 magic).length = 4 := leBytes_length 4 magic
  have l2 : (padBytes 12 cmd).length = 12 := padBytes_length 12 cmd
  have l3 : (leBytes 4 lenField).length = 4 := leBytes_length 4 lenField
  have hd4 : (leBytes 4 magic ++
      (padBytes 12 cmd ++ (leBytes 4 lenField ++ (chk ++ payload)))).drop 4 =
      padBytes 12 cmd ++ (leBytes 4 lenField ++ (chk ++ payload)) :=
    drop_append_len _ l1
  have hd16 : (leBytes 4 magic ++
      (padBytes 12 cmd ++ (leBytes 4 lenField ++ (chk ++ payload)))).drop 16 =
      leBytes 4 lenField ++ (chk ++ payload) := by
    have h1216 : (16 : Nat) = 4 + 12 := by norm_num
    rw [h1216, ← List.drop_drop, hd4, drop_append_len _ l2]
  have hd20 : (leBytes 4 magic ++
      (padBytes 12 cmd ++ (leBytes 4 lenField ++ (chk ++ payload)))).drop 20 =
      chk ++ payload := by
    have h1620 : (20 : Nat) = 16 + 4 := by norm_num
    rw [h1620, ← List.drop_drop, hd16, drop_append_len _ l3]
  have hd24 : (leBytes 4 magic ++
      (padBytes 12 cmd ++ (leBytes 4 lenField ++ (chk ++ payload)))).drop 24 =
      payload := by
    have h2024 : (24 : Nat) = 20 + 4 := by norm_num
    rw [h2024, ← List.drop_drop, hd20, drop_append_len _ hchk]
  have hcmdbytes : ((leBytes 4 magic ++
      (padBytes 12 cmd ++ (leBytes 4 lenField ++ (chk ++ payload)))).drop 4).take
        12 = padBytes 12 cmd := by
    rw [hd4, take_append_len _ l2]
  have hfilter : (padBytes 12 cmd).filter (fun b => b != 0) = cmd := by
    unfold padBytes
    rw [List.take_of_length_le hcmdlen]
    exact filter_nonzero_append_replicate cmd _ (fun c hc => (hcmd c hc).1)
  have hbuflen : 24 ≤ (leBytes 4 magic ++
      (padBytes 12 cmd ++ (leBytes 4 lenField ++ (chk ++ payload)))).length := by
    simp only [List.length_append, l1, l2, l3, hchk]
    omega
  unfold messageDecode
  rw [if_pos hbuflen, hcmdbytes, hfilter,
    utf8Decode_ascii (fun c hc => (hcmd c hc).2)]
  dsimp only
  rw [take_append_len _ l1, leVal_leBytes_of_lt (by omega : magic < 256 ^ 4),
    hd16, take_append_len _ l3,
    leVal_leBytes_of_lt (by omega : lenField < 256 ^ 4),
    hd20, take_append_len _ hchk, hd24]

/-- C3 (counterexample): a buffer whose 24-byte header declares a
payload length of 0 but which carries one trailing byte. `decode`
returns that byte as the payload instead of slicing 0 bytes, and two
buffers differing only beyond offset 24 + length decode to different
payloads — the length field never limits the payload slice. -/
theorem c3_frame_extra_bytes_cex :
    messageDecode
        ([0, 0, 0, 0] ++
          ([0x61, 0, 0, 0, 0, 0, 0, 0, 0, 0, 0, 0] ++
            ([0, 0, 0, 0] ++ ([1, 2, 3, 4] ++ [0xab])))) =
      some { magic := 0, command := [0x61], length := 0,
             checksum := [1, 2, 3, 4], payload := [0xab] } ∧
    messageDecode
        ([0, 0, 0, 0] ++
          ([0x61, 0, 0, 0, 0, 0, 0, 0, 0, 0, 0, 0] ++
            ([0, 0, 0, 0] ++ ([1, 2, 3, 4] ++ [0xab])))) ≠
      messageDecode
        ([0, 0, 0, 0] ++
          ([0x61, 0, 0, 0, 0, 0, 0, 0, 0, 0, 0, 0] ++
            ([0, 0, 0, 0] ++ ([1, 2, 3, 4] ++ [0xcd])))) := by
  constructor
  · decide
  · decide

/-- C3 (amended): `Message.decode` reads the fixed 24-byte header and
returns as payload the ENTIRE remainder of the buffer — `decode_payload`
receives `buf[24:]`, the header's length field is parsed but never used
to slice, so bytes beyond offset 24 + length DO flow into the decoded
payload. -/
theorem c3_frame_payload_is_remainder (magic lenField : Nat)
    (cmd chk payload : List Nat)
    (hmagic : magic < 2 ^ 32) (hlen : lenField < 2 ^ 32)
    (hcmd : ∀ c ∈ cmd, 0 < c ∧ c < 0x80) (hcmdlen : cmd.length ≤ 12)
    (hchk : chk.length = 4) :
    (messageDecode (leBytes 4 magic ++
        (padBytes 12 cmd ++
          (leBytes 4 lenField ++ (chk ++ payload))))).map
        (fun p => p.payload) = some payload := by
  rw [messageDecode_fields magic lenField cmd chk payload hmagic hlen hcmd
    hcmdlen hchk]
  rfl

/-- C3 (witness): the amended theorem at a length field of 0 with a
2-byte remainder. -/
theorem c3_frame_payload_is_remainder_witness :
    (messageDecode (leBytes 4 7 ++
        (padBytes 12 [0x61] ++
          (leBytes 4 0 ++ ([9, 9, 9, 9] ++ [0xab, 0xcd]))))).map
        (fun p => p.payload) = some [0xab, 0xcd] :=
  c3_frame_payload_is_remainder 7 0 [0x61] [9, 9, 9, 9] [0xab, 0xcd]
    (by decide) (by decide) (by decide) (by decide) (by decide)

/-- C7: for every well-framed buffer — a complete 24-byte header with
an ASCII command and exactly the declared payload behind it — decode
succeeds and returns the parsed fields (magic, command, length,
checksum, payload) for EVERY value of the 4-byte checksum field: no
hypothesis relates the checksum to the payload, so decode performs no
checksum comparison, and the field is handed back verbatim for any
separate verification step the caller may run. -/
theorem c7_decode_ignores_checksum (magic : Nat)
    (cmd chk payload : List Nat)
    (hmagic : magic < 2 ^ 32) (hplen : payload.length < 2 ^ 32)
    (hcmd : ∀ c ∈ cmd, 0 < c ∧ c < 0x80) (hcmdlen : cmd.length ≤ 12)
    (hchk : chk.length = 4) :
    messageDecode (messageEncode magic cmd chk payload) =
      some { magic := magic, command := cmd, length := payload.length,
             checksum := chk, payload := payload } := by
  unfold messageEncode
  rw [utf8Encode_ascii (fun c hc => (hcmd c hc).2), padBytes_eq_of_length hchk]
  exact messageDecode_fields magic payload.length cmd chk payload hmagic
    hplen hcmd hcmdlen hchk

/-- C7 (witness): a frame whose checksum field [0, 0, 0, 0] is not the
double-SHA256 prefix of its payload still decodes to its parsed
fields. -/
theorem c7_decode_ignores_checksum_witness :
    messageDecode (messageEncode 0xd9b4bef9 [0x61] [0, 0, 0, 0]
        [0x01, 0x02]) =
      some { magic := 0xd9b4bef9, command := [0x61], length := 2,
             checksum := [0, 0, 0, 0], payload := [0x01, 0x02] } :=
  c7_decode_ignores_checksum 0xd9b4bef9 [0x61] [0, 0, 0, 0] [0x01, 0x02]
    (by decide) (by decide) (by decide) (by decide) (by decide)

/-- C5: for every well-framed buffer whose command matches no
registered payload codec (not "version", "verack" or "addr"), decode
still succeeds — the base `decode_payload` is the identity on the
payload bytes, so the result carries the raw, undecoded payload; the
command being unrecognized can never make decode fail. -/
theorem c5_unknown_command_raw_payload (magic : Nat)
    (cmd chk payload : List Nat)
    (hmagic : magic < 2 ^ 32) (hplen : payload.length < 2 ^ 32)
    (hcmd : ∀ c ∈ cmd, 0 < c ∧ c < 0x80) (hcmdlen : cmd.length ≤ 12)
    (hchk : chk.length = 4)
    (hunknown : cmd ∉ knownCommands) :
    messageDecode (messageEncode magic cmd chk payload) =
      some { magic := magic, command := cmd, length := payload.length,
             checksum := chk, payload := payload } := by
  unfold messageEncode
  rw [utf8Encode_ascii (fun c hc => (hcmd c hc).2), padBytes_eq_of_length hchk]
  exact messageDecode_fields magic payload.length cmd chk payload hmagic
    hplen hcmd hcmdlen hchk

/-- C5 (witness): a frame with the unregistered command "foo" decodes
to its raw payload bytes. -/
theorem c5_unknown_command_raw_payload_witness :
    messageDecode (messageEncode 1 [0x66, 0x6f, 0x6f] [7, 7, 7, 7]
        [0xde, 0xad]) =
      some { magic := 1, command := [0x66, 0x6f, 0x6f], length := 2,
             checksum := [7, 7, 7, 7], payload := [0xde, 0xad] } :=
  c5_unknown_command_raw_payload 1 [0x66, 0x6f, 0x6f] [7, 7, 7, 7]
    [0xde, 0xad] (by decide) (by decide) (by decide) (by decide)
    (by decide) (by decide)

theorem beBytes2_length (n : Nat) : (beBytes2 n).length = 2 := by
  simp [beBytes2]

theorem beVal_beBytes2 {n : Nat} (h : n < 2 ^ 16) :
    beVal (beBytes2 n) = n := by
  simp only [beBytes2, beVal, List.foldl_cons, List.foldl_nil]
  omega

theorem netaddrEncode_nots_length (ip : List Nat) (port services : Nat) :
    (netaddrEncode ip port services none).length = 26 := by
  simp [netaddrEncode, padBytes_length, leBytes_length, beBytes2_length]

/-- Round trip of the 26-byte (timestamp-absent) NetAddr form through
the flat codec: every field is preserved and the timestamp comes back
absent. -/
theorem netaddrDecode_netaddrEncode_nots (ip : List Nat)
    (port services : Nat) (hip : ip.length = 4) (hport : port < 2 ^ 16)
    (hsv : services < 2 ^ 64) :
    netaddrDecode (netaddrEncode ip port services none) =
      some { timestamp := none, services := services, ip := ip,
             port := port } := by
  have hlen : (netaddrEncode ip port services none).length = 26 :=
    netaddrEncode_nots_length ip port services
  have hpad : (padBytes 4 ip).length = 4 := padBytes_length 4 ip
  have hmark : (List.replicate 10 0 ++ [0xff, 0xff] : List Nat).length = 12 := by
    simp
  have hd8 : (netaddrEncode ip port services none).drop 8 =
      (List.replicate 10 0 ++ [0xff, 0xff]) ++
        (padBytes 4 ip ++ beBytes2 port) := by
    unfold netaddrEncode
    rw [List.nil_append]
    exact drop_append_len _ (leBytes_length 8 services)
  have hd20 : (netaddrEncode ip port services none).drop 20 =
      padBytes 4 ip ++ beBytes2 port := by
    have h : (20 : Nat) = 8 + 12 := by norm_num
    rw [h, ← List.drop_drop, hd8, drop_append_len _ hmark]
  unfold netaddrDecode
  rw [if_pos (Or.inl hlen)]
  have hne : ¬ ((netaddrEncode ip port services none).length ≠ 26) := by
    rw [hlen]
    simp
  rw [if_neg hne]
  have htake8 : (netaddrEncode ip port services none).take 8 =
      leBytes 8 services := by
    unfold netaddrEncode
    rw [List.nil_append]
    exact take_append_len _ (leBytes_length 8 services)
  dsimp only
  rw [hlen]
  have h26 : (26 : Nat) - 6 = 20 := by norm_num
  rw [h26, hd20, htake8, leVal_leBytes_of_lt (by omega : services < 256 ^ 8),
    take_append_len _ hpad, drop_append_len _ hpad,
    padBytes_eq_of_length hip, beVal_beBytes2 hport]

/-- Full Version-payload round trip: decoding an encoded payload
recovers every field, with the version being the class constant used
at encode time and the addresses reduced to timestamp-free
(ip, port) pairs whatever timestamps were supplied. -/
theorem versionDecode_versionEncode (classVer : Nat) (p : VersionPayload)
    (hver : classVer < 2 ^ 32)
    (hsv : p.services < 2 ^ 64)
    (hts : p.timestamp < 2 ^ 63)
    (hrip : p.addr_recv.ip.length = 4)
    (hrport : p.addr_recv.port < 2 ^ 16)
    (hfip : p.addr_from.ip.length = 4)
    (hfport : p.addr_from.port < 2 ^ 16)
    (hnonce : p.nonce < 2 ^ 64)
    (hua : ∀ c ∈ strOr p.user_agent USER_AGENT, c < 0x80)
    (hualen : (strOr p.user_agent USER_AGENT).length < 0xffffffff)
    (hsh : p.start_height < 2 ^ 32) :
    versionDecodePayload (versionEncodePayload classVer p) =
      some { version := classVer, services := p.services,
             timestamp := p.timestamp,
             addr_recv := (p.addr_recv.ip, p.addr_recv.port),
             addr_from := (p.addr_from.ip, p.addr_from.port),
             nonce := p.nonce,
             user_agent := strOr p.user_agent USER_AGENT,
             start_height := p.start_height, relay := p.relay } := by
  have hS3 : padBytes 26 (socket2netaddr p.addr_recv.ip p.addr_recv.port
      p.addr_recv.timestamp false) =
      netaddrEncode p.addr_recv.ip p.addr_recv.port 0 none :=
    padBytes_eq_of_length (netaddrEncode_nots_length _ _ _)
  have hS4 : padBytes 26 (socket2netaddr p.addr_from.ip p.addr_from.port
      p.addr_from.timestamp false) =
      netaddrEncode p.addr_from.ip p.addr_from.port 0 none :=
    padBytes_eq_of_length (netaddrEncode_nots_length _ _ _)
  have hS6ua : utf8Encode (strOr p.user_agent USER_AGENT) =
      strOr p.user_agent USER_AGENT := utf8Encode_ascii hua
  have l0 : (leBytes 4 classVer).length = 4 := leBytes_length _ _
  have l1 : (leBytes 8 p.services).length = 8 := leBytes_length _ _
  have l2 : (leBytes 8 p.timestamp).length = 8 := leBytes_length _ _
  have l3 : (netaddrEncode p.addr_recv.ip p.addr_recv.port 0 none).length
      = 26 := netaddrEncode_nots_length _ _ _
  have l4 : (netaddrEncode p.addr_from.ip p.addr_from.port 0 none).length
      = 26 := netaddrEncode_nots_length _ _ _
  have l5 : (leBytes 8 p.nonce).length = 8 := leBytes_length _ _
  have l7 : (leBytes 4 p.start_height).length = 4 := leBytes_length _ _
  unfold versionEncodePayload
  rw [hS3, hS4]
  have hd4 : ∀ t : List Nat, (leBytes 4 classVer ++ t).drop 4 = t :=
    fun t => drop_append_len t l0
  generalize hbuf : leBytes 4 classVer ++
      (leBytes 8 p.services ++
        (leBytes 8 p.timestamp ++
          (netaddrEncode p.addr_recv.ip p.addr_recv.port 0 none ++
            (netaddrEncode p.addr_from.ip p.addr_from.port 0 none ++
              (leBytes 8 p.nonce ++
                (str2varstr (strOr p.user_agent USER_AGENT) ++
                  (leBytes 4 p.start_height ++
                    [if p.relay then 1 else 0]))))))) = buf
  have hLS6 : (str2varstr (strOr p.user_agent USER_AGENT)).length =
      (int2varint (strOr p.user_agent USER_AGENT).length).length +
        (strOr p.user_agent USER_AGENT).length := by
    rw [str2varstr, List.length_append, hS6ua]
  have hlen : buf.length =
      85 + (str2varstr (strOr p.user_agent USER_AGENT)).length := by
    rw [← hbuf]
    simp only [List.length_append, l0, l1, l2, l3, l4, l5, l7,
      List.length_cons, List.length_nil]
    omega
  have hdrop4 : buf.drop 4 =
      leBytes 8 p.services ++
        (leBytes 8 p.timestamp ++
          (netaddrEncode p.addr_recv.ip p.addr_recv.port 0 none ++
            (netaddrEncode p.addr_from.ip p.addr_from.port 0 none ++
              (leBytes 8 p.nonce ++
                (str2varstr (strOr p.user_agent USER_AGENT) ++
                  (leBytes 4 p.start_height ++
                    [if p.relay then 1 else 0])))))) := by
    rw [← hbuf]; exact drop_append_len _ l0
  have hdrop12 : buf.drop 12 =
      leBytes 8 p.timestamp ++
        (netaddrEncode p.addr_recv.ip p.addr_recv.port 0 none ++
          (netaddrEncode p.addr_from.ip p.addr_from.port 0 none ++
            (leBytes 8 p.nonce ++
              (str2varstr (strOr p.user_agent USER_AGENT) ++
                (leBytes 4 p.start_height ++
                  [if p.relay then 1 else 0]))))) := by
    have h : (12 : Nat) = 4 + 8 := by norm_num
    rw [h, ← List.drop_drop, hdrop4, drop_append_len _ l1]
  have hdrop20 : buf.drop 20 =
      netaddrEncode p.addr_recv.ip p.addr_recv.port 0 none ++
        (netaddrEncode p.addr_from.ip p.addr_from.port 0 none ++
          (leBytes 8 p.nonce ++
            (str2varstr (strOr p.user_agent USER_AGENT) ++
              (leBytes 4 p.start_height ++
                [if p.relay then 1 else 0])))) := by
    have h : (20 : Nat) = 12 + 8 := by norm_num
    rw [h, ← List.drop_drop, hdrop12, drop_append_len _ l2]
  have hdrop46 : buf.drop 46 =
      netaddrEncode p.addr_from.ip p.addr_from.port 0 none ++
        (leBytes 8 p.nonce ++
          (str2varstr (strOr p.user_agent USER_AGENT) ++
            (leBytes 4 p.start_height ++
              [if p.relay then 1 else 0]))) := by
    have h : (46 : Nat) = 20 + 26 := by norm_num
    rw [h, ← List.drop_drop, hdrop20, drop_append_len _ l3]
  have hdrop72 : buf.drop 72 =
      leBytes 8 p.nonce ++
        (str2varstr (strOr p.user_agent USER_AGENT) ++
          (leBytes 4 p.start_height ++
            [if p.relay then 1 else 0])) := by
    have h : (72 : Nat) = 46 + 26 := by norm_num
    rw [h, ← List.drop_drop, hdrop46, drop_append_len _ l4]
  have hdrop80 : buf.drop 80 =
      str2varstr (strOr p.user_agent USER_AGENT) ++
        (leBytes 4 p.start_height ++ [if p.relay then 1 else 0]) := by
    have h : (80 : Nat) = 72 + 8 := by norm_num
    rw [h, ← List.drop_drop, hdrop72, drop_append_len _ l5]
  have hL : buf.length - 85 =
      (str2varstr (strOr p.user_agent USER_AGENT)).length := by
    omega
  have hdrop80L : buf.drop
      (80 + (str2varstr (strOr p.user_agent USER_AGENT)).length) =
      leBytes 4 p.start_height ++ [if p.relay then 1 else 0] := by
    rw [← List.drop_drop, hdrop80, drop_append_len _ rfl]
  have hdrop84L : buf.drop
      (84 + (str2varstr (strOr p.user_agent USER_AGENT)).length) =
      [if p.relay then 1 else 0] := by
    have h : 84 + (str2varstr (strOr p.user_agent USER_AGENT)).length =
        (80 + (str2varstr (strOr p.user_agent USER_AGENT)).length) + 4 := by
      omega
    rw [h, ← List.drop_drop, hdrop80L, drop_append_len _ l7]
  have hvarstr : varstrDecodeBytes
      ((buf.drop 80).take
        (str2varstr (strOr p.user_agent USER_AGENT)).length) =
      some (strOr p.user_agent USER_AGENT,
        varintReportedLen (strOr p.user_agent USER_AGENT).length +
          (strOr p.user_agent USER_AGENT).length) := by
    rw [hdrop80, take_append_len _ rfl]
    unfold varstrDecodeBytes
    rw [str2varstr, hS6ua,
      varint2int_int2varint _ (by omega) (strOr p.user_agent USER_AGENT)]
    dsimp only
    rw [varintReportedLen_eq_length hualen, List.drop_left]
    rw [if_pos (le_refl _), List.take_length,
      ← varintReportedLen_eq_length hualen]
  unfold versionDecodePayload
  rw [if_pos (by omega : 85 ≤ buf.length), hL, hvarstr]
  rw [show netaddr2socket ((buf.drop 20).take 26) =
      some { timestamp := none, services := 0, ip := p.addr_recv.ip,
             port := p.addr_recv.port } from by
    rw [hdrop20, take_append_len _ l3]
    exact netaddrDecode_netaddrEncode_nots _ _ _ hrip hrport (by norm_num)]
  rw [show netaddr2socket ((buf.drop 46).take 26) =
      some { timestamp := none, services := 0, ip := p.addr_from.ip,
             port := p.addr_from.port } from by
    rw [hdrop46, take_append_len _ l4]
    exact netaddrDecode_netaddrEncode_nots _ _ _ hfip hfport (by norm_num)]
  dsimp only
  rw [utf8Decode_ascii hua]
  dsimp only
  rw [← hbuf]
  rw [take_append_len _ l0, leVal_leBytes_of_lt (by omega : classVer < 256 ^ 4)]
  rw [hbuf, hdrop4, take_append_len _ l1,
    leVal_leBytes_of_lt (by omega : p.services < 256 ^ 8),
    hdrop12, take_append_len _ l2,
    leVal_leBytes_of_lt (by omega : p.timestamp < 256 ^ 8),
    hdrop72, take_append_len _ l5,
    leVal_leBytes_of_lt (by omega : p.nonce < 256 ^ 8),
    hdrop80L, take_append_len _ l7,
    leVal_leBytes_of_lt (by omega : p.start_height < 256 ^ 4),
    hdrop84L]
  cases hr : p.relay <;> rfl

/-- C9: Version addresses are always encoded in the 26-byte
timestamp-absent NetAddr form — encode passes `with_ts=False`, so the
payload bytes are identical whether or not timestamps were supplied
for `addr_recv`/`addr_from` (first conjunct, which holds by
computation: the supplied timestamp is cleared before encoding), and
decoding an encoded Version yields addresses reduced to (ip, port)
pairs that carry no timestamp (second conjunct). -/
theorem c9_version_addr_timestamp_cleared (classVer : Nat)
    (p : VersionPayload)
    (hver : classVer < 2 ^ 32)
    (hsv : p.services < 2 ^ 64)
    (hts : p.timestamp < 2 ^ 63)
    (hrip : p.addr_recv.ip.length = 4)
    (hrport : p.addr_recv.port < 2 ^ 16)
    (hfip : p.addr_from.ip.length = 4)
    (hfport : p.addr_from.port < 2 ^ 16)
    (hnonce : p.nonce < 2 ^ 64)
    (hua : ∀ c ∈ strOr p.user_agent USER_AGENT, c < 0x80)
    (hualen : (strOr p.user_agent USER_AGENT).length < 0xffffffff)
    (hsh : p.start_height < 2 ^ 32) :
    versionEncodePayload classVer p =
      versionEncodePayload classVer
        { p with addr_recv := { p.addr_recv with timestamp := none },
                 addr_from := { p.addr_from with timestamp := none } } ∧
    versionDecodePayload (versionEncodePayload classVer p) =
      some { version := classVer, services := p.services,
             timestamp := p.timestamp,
             addr_recv := (p.addr_recv.ip, p.addr_recv.port),
             addr_from := (p.addr_from.ip, p.addr_from.port),
             nonce := p.nonce,
             user_agent := strOr p.user_agent USER_AGENT,
             start_height := p.start_height, relay := p.relay } :=
  ⟨rfl, versionDecode_versionEncode classVer p hver hsv hts hrip hrport
    hfip hfport hnonce hua hualen hsh⟩

/-- C9 (witness): a Version whose two addresses carry supplied
timestamps 123 and 456 encodes and decodes to timestamp-free
(ip, port) pairs. -/
theorem c9_version_addr_timestamp_cleared_witness :
    versionEncodePayload 70001
        { version := 70001, services := 1, timestamp := 1700000000,
          addr_recv := { ip := [8, 8, 8, 8], port := 8333,
                         timestamp := some 123 },
          addr_from := { ip := [127, 0, 0, 1], port := 8333,
                         timestamp := some 456 },
          nonce := 0xdeadbeaf, user_agent := some [0x61, 0x62],
          start_height := 1337, relay := true } =
      versionEncodePayload 70001
        { version := 70001, services := 1, timestamp := 1700000000,
          addr_recv := { ip := [8, 8, 8, 8], port := 8333,
                         timestamp := none },
          addr_from := { ip := [127, 0, 0, 1], port := 8333,
                         timestamp := none },
          nonce := 0xdeadbeaf, user_agent := some [0x61, 0x62],
          start_height := 1337, relay := true } ∧
    versionDecodePayload (versionEncodePayload 70001
        { version := 70001, services := 1, timestamp := 1700000000,
          addr_recv := { ip := [8, 8, 8, 8], port := 8333,
                         timestamp := some 123 },
          addr_from := { ip := [127, 0, 0, 1], port := 8333,
                         timestamp := some 456 },
          nonce := 0xdeadbeaf, user_agent := some [0x61, 0x62],
          start_height := 1337, relay := true }) =
      some { version := 70001, services := 1, timestamp := 1700000000,
             addr_recv := ([8, 8, 8, 8], 8333),
             addr_from := ([127, 0, 0, 1], 8333),
             nonce := 0xdeadbeaf, user_agent := [0x61, 0x62],
             start_height := 1337, relay := true } :=
  c9_version_addr_timestamp_cleared 70001
    { version := 70001, services := 1, timestamp := 1700000000,
      addr_recv := { ip := [8, 8, 8, 8], port := 8333,
                     timestamp := some 123 },
      addr_from := { ip := [127, 0, 0, 1], port := 8333,
                     timestamp := some 456 },
      nonce := 0xdeadbeaf, user_agent := some [0x61, 0x62],
      start_height := 1337, relay := true }
    (by decide) (by decide) (by decide) (by decide) (by decide)
    (by decide) (by decide) (by decide) (by decide) (by decide)
    (by decide)

/-- C10: the protocol-version field written into the encoded payload
is the class-level VERSION constant at encode time: changing the
payload's stored version entry leaves the encoded bytes unchanged
(first conjunct, by computation — `encode_payload` packs
`self.VERSION`), the constructor stores the class constant and
ignores its `version` argument (second conjunct, by computation), and
decoding an encoded payload returns the class constant as the version
(third conjunct). -/
theorem c10_version_field_is_class_constant (classVer v : Nat)
    (p : VersionPayload)
    (hver : classVer < 2 ^ 32)
    (hsv : p.services < 2 ^ 64)
    (hts : p.timestamp < 2 ^ 63)
    (hrip : p.addr_recv.ip.length = 4)
    (hrport : p.addr_recv.port < 2 ^ 16)
    (hfip : p.addr_from.ip.length = 4)
    (hfport : p.addr_from.port < 2 ^ 16)
    (hnonce : p.nonce < 2 ^ 64)
    (hua : ∀ c ∈ strOr p.user_agent USER_AGENT, c < 0x80)
    (hualen : (strOr p.user_agent USER_AGENT).length < 0xffffffff)
    (hsh : p.start_height < 2 ^ 32) :
    versionEncodePayload classVer { p with version := v } =
      versionEncodePayload classVer p ∧
    (versionInit classVer (some v) p.services p.timestamp p.addr_recv
        p.addr_from p.nonce p.user_agent p.start_height p.relay).version =
      classVer ∧
    (versionDecodePayload (versionEncodePayload classVer p)).map
        (fun d => d.version) = some classVer := by
  refine ⟨rfl, rfl, ?_⟩
  rw [versionDecode_versionEncode classVer p hver hsv hts hrip hrport
    hfip hfport hnonce hua hualen hsh]
  rfl

/-- C10 (witness): with the class constant 70001 and a payload whose
stored version entry is 99999, the encoded bytes ignore 99999, the
constructor stores 70001, and decode returns 70001. -/
theorem c10_version_field_is_class_constant_witness :
    versionEncodePayload 70001
        { version := 99999, services := 0, timestamp := 0,
          addr_recv := { ip := [1, 2, 3, 4], port := 1, timestamp := none },
          addr_from := { ip := [5, 6, 7, 8], port := 2, timestamp := none },
          nonce := 7, user_agent := none, start_height := 0,
          relay := false } =
      versionEncodePayload 70001
        { version := 70001, services := 0, timestamp := 0,
          addr_recv := { ip := [1, 2, 3, 4], port := 1, timestamp := none },
          addr_from := { ip := [5, 6, 7, 8], port := 2, timestamp := none },
          nonce := 7, user_agent := none, start_height := 0,
          relay := false } ∧
    (versionInit 70001 (some 99999) 0 0
        { ip := [1, 2, 3, 4], port := 1, timestamp := none }
        { ip := [5, 6, 7, 8], port := 2, timestamp := none }
        7 none 0 false).version = 70001 ∧
    (versionDecodePayload (versionEncodePayload 70001
        { version := 70001, services := 0, timestamp := 0,
          addr_recv := { ip := [1, 2, 3, 4], port := 1, timestamp := none },
          addr_from := { ip := [5, 6, 7, 8], port := 2, timestamp := none },
          nonce := 7, user_agent := none, start_height := 0,
          relay := false })).map (fun d => d.version) = some 70001 :=
  c10_version_field_is_class_constant 70001 99999
    { version := 70001, services := 0, timestamp := 0,
      addr_recv := { ip := [1, 2, 3, 4], port := 1, timestamp := none },
      addr_from := { ip := [5, 6, 7, 8], port := 2, timestamp := none },
      nonce := 7, user_agent := none, start_height := 0, relay := false }
    (by decide) (by decide) (by decide) (by decide) (by decide)
    (by decide) (by decide) (by decide) (by decide) (by decide)
    (by decide)

theorem addrEntryEncode_length (e : AddrEntry) :
    (addrEntryEncode e).length = 30 := by
  simp [addrEntryEncode, leBytes_length, padBytes_length]

theorem pyRange30_stop_mul {pfx n : Nat} (h1 : 1 ≤ pfx) (h29 : pfx ≤ 29) :
    pyRange30 pfx (n * 30) =
      (List.range n).map (fun k => pfx + 30 * k) := by
  unfold pyRange30
  rw [show (n * 30 - pfx + 29) / 30 = n from by omega]

theorem flatten_uniform_slice :
    ∀ (blocks : List (List Nat)), (∀ b ∈ blocks, b.length = 30) →
      ∀ k, k < blocks.length →
        (blocks.flatten.drop (30 * k)).take 30 = blocks.getD k [] := by
  intro blocks
  induction blocks with
  | nil =>
    intro _ k hk
    simp at hk
  | cons b bs ih =>
    intro h k hk
    have hb : b.length = 30 := h b (List.mem_cons_self b bs)
    have hbs : ∀ x ∈ bs, x.length = 30 :=
      fun x hx => h x (List.mem_cons_of_mem b hx)
    cases k with
    | zero =>
      simp only [Nat.mul_zero, List.drop_zero, List.flatten_cons,
        List.getD_cons_zero]
      exact take_append_len _ hb
    | succ k =>
      have hstep : 30 * (k + 1) = 30 + 30 * k := by ring
      rw [List.flatten_cons, List.getD_cons_succ, hstep, ← List.drop_drop,
        drop_append_len _ hb]
      exact ih hbs k (by simpa using hk)

theorem mapOption_map_of_some {α β γ : Type} (f : β → Option γ)
    (u : α → β) (g : α → γ) (xs : List α)
    (h : ∀ x ∈ xs, f (u x) = some (g x)) :
    mapOption f (xs.map u) = some (xs.map g) := by
  induction xs with
  | nil => rfl
  | cons a as ih =>
    rw [List.map_cons, List.map_cons, mapOption,
      h a (List.mem_cons_self a as),
      ih (fun x hx => h x (List.mem_cons_of_mem a hx))]

theorem range_map_getD {α β : Type} (l : List α) (d : α) (h : α → β) :
    (List.range l.length).map (fun k => h (l.getD k d)) = l.map h := by
  induction l with
  | nil => rfl
  | cons a as ih =>
    rw [List.length_cons, List.range_succ_eq_map, List.map_cons,
      List.map_map, List.map_cons, List.getD_cons_zero]
    refine congrArg₂ List.cons rfl ?_
    rw [← ih]
    apply List.map_congr_left
    intro k _
    simp

theorem getD_map_of_lt {α β : Type} (f : α → β) :
    ∀ (l : List α) (k : Nat), k < l.length → ∀ (d : α) (d' : β),
      (l.map f).getD k d' = f (l.getD k d) := by
  intro l
  induction l with
  | nil =>
    intro k hk
    simp at hk
  | cons a as ih =>
    intro k hk d d'
    cases k with
    | zero => rfl
    | succ k =>
      rw [List.map_cons, List.getD_cons_succ, List.getD_cons_succ]
      exact ih k (by simpa using hk) d d'

theorem getD_mem_of_lt {α : Type} :
    ∀ (l : List α) (k : Nat), k < l.length → ∀ (d : α), l.getD k d ∈ l := by
  intro l
  induction l with
  | nil =>
    intro k hk
    simp at hk
  | cons a as ih =>
    intro k hk d
    cases k with
    | zero => exact List.mem_cons_self a as
    | succ k =>
      rw [List.getD_cons_succ]
      exact List.mem_cons_of_mem a (ih k (by simpa using hk) d)

theorem range_map_getD_addrdec (l : List AddrEntry) :
    (List.range l.length).map (fun k =>
      ({ timestamp := (l.getD k ⟨0, [], 0⟩).timestamp, services := 0,
         ip := (l.getD k ⟨0, [], 0⟩).ip,
         port := (l.getD k ⟨0, [], 0⟩).port } : AddrDecodedEntry)) =
      l.map (fun e =>
        ({ timestamp := e.timestamp, services := 0,
           ip := e.ip, port := e.port } : AddrDecodedEntry)) :=
  range_map_getD l ⟨0, [], 0⟩ (fun e =>
    ({ timestamp := e.timestamp, services := 0,
       ip := e.ip, port := e.port } : AddrDecodedEntry))

theorem socket2netaddr_nots_length (ip : List Nat) (port : Nat)
    (ts : Option Nat) : (socket2netaddr ip port ts false).length = 26 :=
  netaddrEncode_nots_length ip port 0

/-- A 26-byte address produced by `socket2netaddr` with
`with_ts=False` parses back to its fields with no timestamp,
regardless of the supplied timestamp. -/
theorem netaddr2socket_socket2netaddr_nots (ip : List Nat) (port : Nat)
    (ts : Option Nat) (hip : ip.length = 4) (hport : port < 2 ^ 16) :
    netaddr2socket (socket2netaddr ip port ts false) =
      some { timestamp := none, services := 0, ip := ip, port := port } :=
  netaddrDecode_netaddrEncode_nots ip port 0 hip hport (by norm_num)

/-- Addr-payload round trip: decode recovers every entry, in the
input order, with no truncation — the decoded list's timestamps are
exactly the encoded list's, position by position. -/
theorem addrDecode_addrEncode (l : List AddrEntry)
    (hlen : l.length < 0xffffffff)
    (hts : ∀ e ∈ l, e.timestamp < 2 ^ 32)
    (hip : ∀ e ∈ l, e.ip.length = 4)
    (hport : ∀ e ∈ l, e.port < 2 ^ 16) :
    addrDecodePayload (addrEncodePayload l) =
      some (l.map (fun e =>
        { timestamp := e.timestamp, services := 0, ip := e.ip,
          port := e.port })) := by
  have hpfx : varintReportedLen l.length = (int2varint l.length).length :=
    varintReportedLen_eq_length hlen
  have hpfx1 : 1 ≤ (int2varint l.length).length := by
    rw [int2varint_length]
    repeat' split
    all_goals omega
  have hpfx29 : (int2varint l.length).length ≤ 29 := by
    rw [int2varint_length]
    repeat' split
    all_goals omega
  have hblocks : ∀ b ∈ l.map addrEntryEncode, b.length = 30 := by
    intro b hb
    obtain ⟨e, _, rfl⟩ := List.mem_map.mp hb
    exact addrEntryEncode_length e
  unfold addrDecodePayload addrEncodePayload
  rw [varint2int_int2varint l.length (by omega) _]
  dsimp only
  rw [hpfx, pyRange30_stop_mul hpfx1 hpfx29]
  refine Eq.trans (mapOption_map_of_some _ _
    (fun k => ({ timestamp := (l.getD k ⟨0, [], 0⟩).timestamp,
                 services := 0, ip := (l.getD k ⟨0, [], 0⟩).ip,
                 port := (l.getD k ⟨0, [], 0⟩).port } : AddrDecodedEntry))
    _ ?_) (congrArg some (range_map_getD_addrdec l))
  intro k hk
  have hk' : k < l.length := List.mem_range.mp hk
  have hgd : l.getD k ⟨0, [], 0⟩ ∈ l := getD_mem_of_lt l k hk' _
  have hdrop : (int2varint l.length ++
      (l.map addrEntryEncode).flatten).drop
        ((int2varint l.length).length + 30 * k) =
      ((l.map addrEntryEncode).flatten).drop (30 * k) := by
    rw [← List.drop_drop, drop_append_len _ rfl]
  have hslice : ((int2varint l.length ++
      (l.map addrEntryEncode).flatten).drop
        ((int2varint l.length).length + 30 * k)).take 30 =
      addrEntryEncode (l.getD k ⟨0, [], 0⟩) := by
    rw [hdrop, flatten_uniform_slice _ hblocks k
        (by simpa using hk'),
      getD_map_of_lt addrEntryEncode l k hk' ⟨0, [], 0⟩ []]
  dsimp only
  rw [hslice, if_pos (addrEntryEncode_length _)]
  unfold addrEntryEncode
  rw [drop_append_len _ (leBytes_length 4 _),
    List.take_of_length_le (le_of_eq (padBytes_length 26 _)),
    padBytes_eq_of_length (socket2netaddr_nots_length _ _ _),
    netaddr2socket_socket2netaddr_nots _ _ _ (hip _ hgd) (hport _ hgd)]
  dsimp only
  rw [take_append_len _ (leBytes_length 4 _),
    leVal_leBytes_of_lt (by have := hts _ hgd; omega :
      (l.getD k ⟨0, [], 0⟩).timestamp < 256 ^ 4)]

/-- C1 (counterexample): encoding 3000 synthetic address entries with
distinct timestamps (timestamps 0..2999 ascending) yields a payload
whose VarInt count prefix decodes to 3000, not 2500 — the source
truncates nothing. -/
theorem c1_addr_no_cap_cex :
    varint2int (addrEncodePayload ((List.range 3000).map
      (fun i => { timestamp := i, ip := [1, 2, 3, 4], port := 1 }))) =
      some (3000, 3) ∧ (3000 : Nat) ≠ 2500 := by
  constructor
  · unfold addrEncodePayload
    rw [List.length_map, List.length_range,
      varint2int_int2varint 3000 (by norm_num) _]
    decide
  · decide

/-- C1 (amended): `Addr.encode_payload` performs neither sorting nor
truncation: the VarInt count prefix is the full list length (first
conjunct), and decoding an encoded list returns every entry in the
original input order with its timestamp intact (second conjunct) —
encoding 3000 entries yields a count prefix of 3000 and all 3000
entries in the order given, not 2500 in descending-timestamp order. -/
theorem c1_addr_encode_no_sort_no_cap (l : List AddrEntry)
    (hlen : l.length < 0xffffffff)
    (hts : ∀ e ∈ l, e.timestamp < 2 ^ 32)
    (hip : ∀ e ∈ l, e.ip.length = 4)
    (hport : ∀ e ∈ l, e.port < 2 ^ 16) :
    varint2int (addrEncodePayload l) =
      some (l.length, varintReportedLen l.length) ∧
    addrDecodePayload (addrEncodePayload l) =
      some (l.map (fun e =>
        { timestamp := e.timestamp, services := 0, ip := e.ip,
          port := e.port })) := by
  constructor
  · unfold addrEncodePayload
    exact varint2int_int2varint l.length (by omega) _
  · exact addrDecode_addrEncode l hlen hts hip hport

/-- C1 (witness): two entries with ascending timestamps 10 then 20
encode to a count prefix of 2 and decode back in the same ascending
order — not sorted descending. -/
theorem c1_addr_encode_no_sort_no_cap_witness :
    varint2int (addrEncodePayload
      [{ timestamp := 10, ip := [1, 2, 3, 4], port := 80 },
       { timestamp := 20, ip := [5, 6, 7, 8], port := 443 }]) =
      some (2, 1) ∧
    addrDecodePayload (addrEncodePayload
      [{ timestamp := 10, ip := [1, 2, 3, 4], port := 80 },
       { timestamp := 20, ip := [5, 6, 7, 8], port := 443 }]) =
      some [{ timestamp := 10, services := 0, ip := [1, 2, 3, 4],
              port := 80 },
            { timestamp := 20, services := 0, ip := [5, 6, 7, 8],
              port := 443 }] :=
  c1_addr_encode_no_sort_no_cap
    [{ timestamp := 10, ip := [1, 2, 3, 4], port := 80 },
     { timestamp := 20, ip := [5, 6, 7, 8], port := 443 }]
    (by decide) (by decide) (by decide) (by decide)

end Coinflow
